import Mathlib

/-!
Verification of the control/presentation layer of the bit-torrent GUI
(`torrent_gui.py`): the tri-state file-selection tree of `TorrentAddingDialog`,
the sorted torrent registry of `MainWindow`, the `ControlManagerThread`
lifecycle, and the control-action error handling.
-/

namespace TorrentGui

/-- The Qt check state of a tree item: `Qt.Unchecked`, `Qt.PartiallyChecked`
(written `partChecked` here) or `Qt.Checked`. -/
inductive CheckState where
  | unchecked
  | partChecked
  | checked
deriving DecidableEq, Repr

mutual
/-- A `QTreeWidgetItem` subtree of the file tree built by `_traverse_file_tree`:
a file item (childless, shown with its `FileInfo` length) or a directory item
with its ordered children.  Each item carries its column-0 check state. -/
inductive Item where
  | file (state : CheckState) (length : Nat)
  | dir (state : CheckState) (children : ItemList)
deriving DecidableEq, Repr

/-- The ordered child items of a directory item. -/
inductive ItemList where
  | nil
  | cons (head : Item) (tail : ItemList)
deriving DecidableEq, Repr
end

/-- `item.checkState(0)`. -/
def Item.state : Item → CheckState
  | .file s _ => s
  | .dir s _ => s

/-- `item.setCheckState(0, s)` on the item alone. -/
def Item.setState : Item → CheckState → Item
  | .file _ len, s => .file s len
  | .dir _ cs, s => .dir s cs

/-- `item.child(i)`. -/
def ItemList.get? : ItemList → Nat → Option Item
  | .nil, _ => none
  | .cons c _, 0 => some c
  | .cons _ cs, n + 1 => cs.get? n

/-- Replacing the child at index `i` (the sibling list after the child object
was mutated in place). -/
def ItemList.set : ItemList → Nat → Item → ItemList
  | .nil, _, _ => .nil
  | .cons _ cs, 0, c1 => .cons c1 cs
  | .cons c cs, n + 1, c1 => .cons c (cs.set n c1)

/-- Number of children, `item.childCount()`. -/
def ItemList.length : ItemList → Nat
  | .nil => 0
  | .cons _ cs => cs.length + 1

/-- Whether some child has check state `s` (the `has_*_children` flags of
`_update_checkboxes`, lines 158-168). -/
def ItemList.anyState : ItemList → CheckState → Bool
  | .nil, _ => false
  | .cons c cs, s => (c.state == s) || cs.anyState s

/-- The ancestor recomputation of `_update_checkboxes` (torrent_gui.py lines
158-175): `Checked` when there is no partially-checked and no unchecked child;
`PartiallyChecked` when there is a checked or a partially-checked child;
`Unchecked` otherwise. -/
def aggregate (cs : ItemList) : CheckState :=
  let hasChecked := cs.anyState .checked
  let hasPartiallyChecked := cs.anyState .partChecked
  let hasUnchecked := cs.anyState .unchecked
  if !hasPartiallyChecked && !hasUnchecked then .checked
  else if hasChecked || hasPartiallyChecked then .partChecked
  else .unchecked

/-- Whether every child has check state `s`. -/
def ItemList.allState : ItemList → CheckState → Bool
  | .nil, _ => true
  | .cons c cs, s => (c.state == s) && cs.allState s

/-- The spec's recomputation rule, stated in its words: `Checked` if all
children are `Checked`; `Unchecked` if all children are `Unchecked`; `Partial`
otherwise. -/
def specAggregate (cs : ItemList) : CheckState :=
  if cs.allState .checked then .checked
  else if cs.allState .unchecked then .unchecked
  else .partChecked

mutual
/-- Sets an item together with every descendant to `s` (the net effect, on one
child, of the recursive `_set_check_state_to_tree` body). -/
def Item.setAllTo : Item → CheckState → Item
  | .file _ len, s => .file s len
  | .dir _ cs, s => .dir s (cs.setAllTo s)

/-- `Item.setAllTo` applied to each item of a list. -/
def ItemList.setAllTo : ItemList → CheckState → ItemList
  | .nil, _ => .nil
  | .cons c cs, s => .cons (c.setAllTo s) (cs.setAllTo s)
end

/-- `_set_check_state_to_tree` (lines 140-144): every strict descendant of the
item is set to `check_state`; the item itself is left untouched. -/
def set_check_state_to_tree (t : Item) (s : CheckState) : Item :=
  match t with
  | .file st len => .file st len
  | .dir st cs => .dir st (cs.setAllTo s)

/-- The item reached from `t` by the list of child indices `p`. -/
def getNode : Item → List Nat → Option Item
  | t, [] => some t
  | .file _ _, _ :: _ => none
  | .dir _ cs, i :: p =>
    match cs.get? i with
    | none => none
    | some c => getNode c p

/-- `_update_checkboxes` (lines 146-178) for a click on the item at path `p`
(child indices from the root item) whose check state the toolkit has just set
to `s`: the new state is propagated down to all descendants, then the `while`
loop walks from the clicked item's parent up to the root, recomputing each
ancestor's state from its (already updated) children.  `none` models an
invalid path. -/
def update_checkboxes : Item → List Nat → CheckState → Option Item
  | t, [], s => some (set_check_state_to_tree (t.setState s) s)
  | .file _ _, _ :: _, _ => none
  | .dir _ cs, i :: p, s =>
    (cs.get? i).bind fun c =>
      (update_checkboxes c p s).map fun c1 =>
        .dir (aggregate (cs.set i c1)) (cs.set i c1)

/-- A sequence of user toggles, each delivered through `_update_checkboxes`. -/
def applyToggles : Item → List (List Nat × CheckState) → Option Item
  | t, [] => some t
  | t, (p, s) :: ops => (update_checkboxes t p s).bind fun t1 => applyToggles t1 ops

mutual
/-- The `_file_items` list built by `_traverse_file_tree` (lines 49-61): one
entry per file item, in traversal order.  An entry keeps the retained
references of the code — the `QTreeWidgetItem` (here: its path of child
indices) and the `FileInfo` length recorded at construction time. -/
def Item.fileItems : Item → List (List Nat × Nat)
  | .file _ len => [([], len)]
  | .dir _ cs => cs.fileItemsFrom 0

/-- File items of the children of a directory item, the `i`-th child's paths
prefixed with `i`. -/
def ItemList.fileItemsFrom : ItemList → Nat → List (List Nat × Nat)
  | .nil, _ => []
  | .cons c cs, i =>
    (c.fileItems.map fun q => (i :: q.1, q.2)) ++ cs.fileItemsFrom (i + 1)
end

/-- The body of the `_update_selection_label` loop (lines 183-186): when the
retained item's current check state is `Checked`, count the file and add the
`FileInfo` length recorded in `_file_items`. -/
def selectionStep (t : Item) (acc : Nat × Nat) (q : List Nat × Nat) : Nat × Nat :=
  match getNode t q.1 with
  | some n => if n.state == .checked then (acc.1 + 1, acc.2 + q.2) else acc
  | none => acc

/-- The loop of `_update_selection_label` (lines 180-186): fold over the stored
`_file_items`, reading each retained file item's current check state; first
component `selected_file_count`, second `selected_size`. -/
def selectedStats (fileItems : List (List Nat × Nat)) (t : Item) : Nat × Nat :=
  fileItems.foldl (selectionStep t) (0, 0)

/-- Lines 188-193: the Ok button is disabled when `selected_file_count` is
falsy (zero) and enabled otherwise. -/
def okEnabled (fileItems : List (List Nat × Nat)) (t : Item) : Bool :=
  (selectedStats fileItems t).1 != 0

mutual
/-- Spec-side aggregate: the number of leaf (file) items whose state is
`Checked`. -/
def Item.checkedLeafCount : Item → Nat
  | .file s _ => if s == .checked then 1 else 0
  | .dir _ cs => cs.checkedLeafCount

def ItemList.checkedLeafCount : ItemList → Nat
  | .nil => 0
  | .cons c cs => c.checkedLeafCount + cs.checkedLeafCount
end

mutual
/-- Spec-side aggregate: the sum of the lengths of the leaf (file) items whose
state is `Checked`. -/
def Item.checkedLeafSize : Item → Nat
  | .file s len => if s == .checked then len else 0
  | .dir _ cs => cs.checkedLeafSize

def ItemList.checkedLeafSize : ItemList → Nat
  | .nil => 0
  | .cons c cs => c.checkedLeafSize + cs.checkedLeafSize
end

/-- Helper: the count contribution of one file-item entry. -/
def countStep (t : Item) (q : List Nat × Nat) : Nat :=
  match getNode t q.1 with
  | some n => if n.state == .checked then 1 else 0
  | none => 0

/-- Helper: the size contribution of one file-item entry. -/
def sizeStep (t : Item) (q : List Nat × Nat) : Nat :=
  match getNode t q.1 with
  | some n => if n.state == .checked then q.2 else 0
  | none => 0

/-- Helper: the count contribution of a file-item list, written as a direct
recursion (the fold of `selectedStats` is proved equal to it). -/
def sumCount (t : Item) : List (List Nat × Nat) → Nat
  | [] => 0
  | q :: rest => countStep t q + sumCount t rest

/-- Helper: the size contribution of a file-item list. -/
def sumSize (t : Item) : List (List Nat × Nat) → Nat
  | [] => 0
  | q :: rest => sizeStep t q + sumSize t rest

mutual
/-- `FileTreeNode` of `models` as consumed by `_traverse_file_tree`: either a
`FileInfo` leaf with its length, or a directory mapping names to child nodes. -/
inductive FileTreeNode where
  | fileInfo (length : Nat)
  | directory (children : FileTreeChildren)

/-- The ordered name → node entries of a directory node. -/
inductive FileTreeChildren where
  | nil
  | cons (name : String) (node : FileTreeNode) (tail : FileTreeChildren)
end

mutual
/-- `_traverse_file_tree` (lines 49-61): builds the `QTreeWidgetItem` tree; every
item starts `Qt.Checked` (line 51); a `FileInfo` node becomes a childless file
item and the traversal returns without recursing. -/
def traverse_file_tree : FileTreeNode → Item
  | .fileInfo len => .file .checked len
  | .directory cs => .dir .checked (traverseChildren cs)

def traverseChildren : FileTreeChildren → ItemList
  | .nil => .nil
  | .cons _ c cs => .cons (traverse_file_tree c) (traverseChildren cs)
end

/-- Modelled from the spec: `DownloadInfo.single_file_mode` (`models.py` is not
under src/) — a single-file torrent is one whose file tree is a lone `FileInfo`
node. -/
def single_file_mode : FileTreeNode → Bool
  | .fileInfo _ => true
  | .directory _ => false

/-- What `submit_torrent` (lines 197-209) hands to the engine: whether
`download_info.select_files(file_paths, whitelist)` was called, and the
collected `file_paths` of the checked file items. -/
structure SubmitOutcome where
  select_files_called : Bool
  whitelist : List (List Nat)
deriving DecidableEq, Repr

/-- The `file_paths` loop of `submit_torrent` (lines 200-203): the paths of the
file items currently checked, in `_file_items` order. -/
def checkedPaths (fileItems : List (List Nat × Nat)) (t : Item) : List (List Nat) :=
  fileItems.foldr
    (fun q acc =>
      match getNode t q.1 with
      | some n => if n.state == .checked then q.1 :: acc else acc
      | none => acc) []

/-- `submit_torrent` (lines 197-209): the whitelist step runs only when the
torrent is not in single-file mode (line 204). -/
def submit_torrent (fileItems : List (List Nat × Nat)) (t : Item)
    (single_file : Bool) : SubmitOutcome :=
  { select_files_called := !single_file,
    whitelist := checkedPaths fileItems t }

/-- Modelled from the spec: whitelist semantics of `select_files` — files not
listed are skipped entirely; a torrent on which `select_files` was never called
downloads every file. -/
def downloadedFiles (o : SubmitOutcome) (allFiles : List (List Nat)) :
    List (List Nat) :=
  if o.select_files_called then o.whitelist else allFiles

/-- Concrete item tree of the spec's scenario — `/a/x.txt(100)`, `/a/y.txt(200)`,
`/b/z.txt(50)` — as freshly built (everything `Checked`). -/
def demoTree : Item :=
  .dir .checked
    (.cons (.dir .checked (.cons (.file .checked 100) (.cons (.file .checked 200) .nil)))
      (.cons (.dir .checked (.cons (.file .checked 50) .nil)) .nil))

/-- `demoTree` after unchecking the root and re-checking `y.txt` and `z.txt`:
`/a` is `Partial`, `/b` is `Checked`, the root is `Partial`. -/
def demoAfter : Item :=
  .dir .partChecked
    (.cons (.dir .partChecked (.cons (.file .unchecked 100) (.cons (.file .checked 200) .nil)))
      (.cons (.dir .checked (.cons (.file .checked 50) .nil)) .nil))

/-- `demoTree` after unchecking the root: everything `Unchecked`. -/
def demoAllUnchecked : Item :=
  .dir .unchecked
    (.cons (.dir .unchecked (.cons (.file .unchecked 100) (.cons (.file .unchecked 200) .nil)))
      (.cons (.dir .unchecked (.cons (.file .unchecked 50) .nil)) .nil))

/-- The fields of a `TorrentState` snapshot that the registry logic reads:
`info_hash` (the id, a stand-in for the 20-byte digest) and `suggested_name`.
The name domain is any linearly ordered type `Name` — Python compares
`suggested_name` strings by their (total) lexicographic order. -/
structure TorrentState (Name : Type) where
  info_hash : Nat
  suggested_name : Name
deriving DecidableEq, Repr

/-- The registry state of `MainWindow`: the rows of `_list_widget` (top to
bottom, each row showing a snapshot) and the key set of the
`_torrent_to_item` dictionary. -/
structure MainWindowItems (Name : Type) where
  items : List (TorrentState Name)
  torrent_to_item : List Nat
deriving DecidableEq, Repr

variable {Name : Type} [LinearOrder Name]

def emptyWindow : MainWindowItems Name := ⟨[], []⟩

/-- The insertion-position loop of `_add_torrent_item` (lines 333-338): the
index of the first row whose name is greater than the new name. -/
def items_upper : List (TorrentState Name) → Name → Nat
  | [], _ => 0
  | x :: xs, name =>
    if name < x.suggested_name then 0 else items_upper xs name + 1

/-- `QListWidget.insertItem(row, item)`: insertion at an index (appending when
the index is past the end). -/
def insertAtIdx {α : Type} : List α → Nat → α → List α
  | l, 0, a => a :: l
  | [], _ + 1, a => [a]
  | x :: xs, n + 1, a => x :: insertAtIdx xs n a

/-- `_add_torrent_item` (lines 324-342): insert the new row at `items_upper`,
then store the dictionary entry (a dict assignment adds the key when absent). -/
def add_torrent_item (w : MainWindowItems Name) (s : TorrentState Name) :
    MainWindowItems Name :=
  { items := insertAtIdx w.items (items_upper w.items s.suggested_name) s,
    torrent_to_item :=
      if s.info_hash ∈ w.torrent_to_item then w.torrent_to_item
      else s.info_hash :: w.torrent_to_item }

/-- Replacing, in place, the state shown by the row the dictionary maps the id
to (the first — under the registry invariant, only — row with this id). -/
def replaceById : List (TorrentState Name) → TorrentState Name → List (TorrentState Name)
  | [], _ => []
  | x :: xs, s =>
    if x.info_hash = s.info_hash then s :: xs else x :: replaceById xs s

/-- `_update_torrent_item` (lines 344-348): `self._torrent_to_item[...]` raises
`KeyError` (`none`) for an unknown id; otherwise the row's widget state is
replaced wholesale and no row moves. -/
def update_torrent_item (w : MainWindowItems Name) (s : TorrentState Name) :
    Option (MainWindowItems Name) :=
  if s.info_hash ∈ w.torrent_to_item then
    some { w with items := replaceById w.items s }
  else none

/-- Removing the row the dictionary maps the id to. -/
def removeById : List (TorrentState Name) → Nat → List (TorrentState Name)
  | [], _ => []
  | x :: xs, id => if x.info_hash = id then xs else x :: removeById xs id

/-- `del self._torrent_to_item[info_hash]`: deleting a key from the
dictionary's key set. -/
def eraseKey : List Nat → Nat → List Nat
  | [], _ => []
  | k :: ks, id => if k = id then ks else k :: eraseKey ks id

/-- `_remove_torrent_item` (lines 350-353): `takeItem` on the dict item's row
and `del` of the dictionary key; an unknown id raises `KeyError` (`none`). -/
def remove_torrent_item (w : MainWindowItems Name) (id : Nat) :
    Option (MainWindowItems Name) :=
  if id ∈ w.torrent_to_item then
    some { items := removeById w.items id,
           torrent_to_item := eraseKey w.torrent_to_item id }
  else none

/-- The registry operations driven by the `torrent_added` / `torrent_changed` /
`torrent_removed` signals. -/
inductive RegistryOp (Name : Type) where
  | add (s : TorrentState Name)
  | update (s : TorrentState Name)
  | remove (id : Nat)

def applyRegistryOp (w : MainWindowItems Name) :
    RegistryOp Name → Option (MainWindowItems Name)
  | .add s => some (add_torrent_item w s)
  | .update s => update_torrent_item w s
  | .remove id => remove_torrent_item w id

def applyRegistryOps :
    MainWindowItems Name → List (RegistryOp Name) → Option (MainWindowItems Name)
  | w, [] => some w
  | w, op :: ops => (applyRegistryOp w op).bind fun w1 => applyRegistryOps w1 ops

/-- The ids currently displayed, in row order. -/
def ids (w : MainWindowItems Name) : List Nat := w.items.map TorrentState.info_hash

/-- Well-formedness of one engine-driven operation: an `add` is for a torrent
not yet registered, and every snapshot of a torrent carries that torrent's
(immutable) name, here given by `nameOf`. -/
def WFRegistryOp (nameOf : Nat → Name) (w : MainWindowItems Name) :
    RegistryOp Name → Prop
  | .add s => s.suggested_name = nameOf s.info_hash ∧ s.info_hash ∉ w.torrent_to_item
  | .update s => s.suggested_name = nameOf s.info_hash
  | .remove _ => True

/-- A sequence of well-formed operations, each succeeding from the state the
previous ones produced. -/
inductive WFTrace (nameOf : Nat → Name) :
    MainWindowItems Name → List (RegistryOp Name) → Prop
  | nil (w : MainWindowItems Name) : WFTrace nameOf w []
  | cons {w w1 : MainWindowItems Name} {op : RegistryOp Name}
      {ops : List (RegistryOp Name)} :
      WFRegistryOp nameOf w op → applyRegistryOp w op = some w1 →
      WFTrace nameOf w1 ops → WFTrace nameOf w (op :: ops)

/-- The registry invariant: rows sorted ascending by name, the dictionary's key
set and the rows' id set agree, ids are unique on both sides, and every shown
snapshot carries its torrent's name. -/
def RegistryInv (nameOf : Nat → Name) (w : MainWindowItems Name) : Prop :=
  List.Sorted (· ≤ ·) (w.items.map TorrentState.suggested_name)
  ∧ (∀ id, id ∈ w.torrent_to_item ↔ id ∈ ids w)
  ∧ (ids w).Nodup
  ∧ w.torrent_to_item.Nodup
  ∧ ∀ s ∈ w.items, s.suggested_name = nameOf s.info_hash

/-- The `ControlManagerThread` lifecycle state that `stop` (lines 443-451)
touches: the `_stopping` flag, how many times `_save_state` has run (it runs in
the `finally` of `run` once the loop is stopped, line 441), and how many times
`wait()` has joined the thread. -/
structure ControlThreadState where
  stopping : Bool
  save_state_count : Nat
  join_count : Nat
deriving DecidableEq, Repr

/-- `stop` (lines 443-451): an early return when `_stopping` is already set;
otherwise set the flag, schedule the engine shutdown whose completion stops the
loop — `run`'s `finally` then executes `_save_state` once — and `wait()` joins
the thread once. -/
def ControlThreadState.stop (t : ControlThreadState) : ControlThreadState :=
  if t.stopping then t
  else { stopping := true,
         save_state_count := t.save_state_count + 1,
         join_count := t.join_count + 1 }

/-- The thread as `run` leaves it while the loop is running: not stopping, no
save, no join yet. -/
def runningControlThread : ControlThreadState := ⟨false, 0, 0⟩

/-- The events `ControlManager` delivers to the window (signals connected at
lines 318-320). -/
inductive EngineEvent where
  | torrent_changed (id : Nat)
  | torrent_removed (id : Nat)
deriving DecidableEq, Repr

/-- Modelled from the spec: `ControlManager.pause` (`control_manager.py` is not
under src/) — `pause` "fails with NotFound when id is unknown" (a `ValueError`)
and emits nothing then; on a known id the torrent's state changes and a
`torrent_changed` event is delivered. -/
def control_pause (known : List Nat) (id : Nat) : Except Unit (List EngineEvent) :=
  if id ∈ known then .ok [.torrent_changed id] else .error ()

/-- Modelled from the spec: `ControlManager.resume`, as `control_pause`. -/
def control_resume (known : List Nat) (id : Nat) : Except Unit (List EngineEvent) :=
  if id ∈ known then .ok [.torrent_changed id] else .error ()

/-- Modelled from the spec: `ControlManager.remove` — NotFound on an unknown
id, a `torrent_removed` event on a known one. -/
def control_remove (known : List Nat) (id : Nat) : Except Unit (List EngineEvent) :=
  if id ∈ known then .ok [.torrent_removed id] else .error ()

/-- `_invoke_control_action` (lines 385-391): run the action; `except
ValueError: pass` suppresses the failure.  The call therefore always completes
normally in the caller's context, delivering the events of a successful action
and none for a suppressed failure. -/
def invoke_control_action (action : Nat → Except Unit (List EngineEvent))
    (id : Nat) : List EngineEvent :=
  match action id with
  | .ok evs => evs
  | .error _ => []

/-- The environment `run` (lines 430-441) starts in: whether `state.bin`
exists, and whether the engine's `load` routine raises on its contents. -/
structure StartupEnv where
  state_file_exists : Bool
  state_load_raises : Bool
deriving DecidableEq, Repr

/-- `_load_state` (lines 421-424): the file is opened and handed to
`self._control.load` only when it exists; there is no exception handler, so a
failure of the load routine propagates. -/
def load_state (env : StartupEnv) : Except Unit Unit :=
  if env.state_file_exists then
    if env.state_load_raises then .error () else .ok ()
  else .ok ()

/-- How the startup phase of `run` ends. -/
inductive RunOutcome where
  | enteredRunPhase
  | crashedBeforeRunPhase
deriving DecidableEq, Repr

/-- `run` (lines 430-441) up to the run phase: after the engine start,
`_load_state()` is called outside any `try`; only when it returns normally does
the thread reach `self._loop.run_forever()`.  An exception escapes `run`
without `_save_state` running (the `try/finally` at lines 438-441 has not been
entered). -/
def runStartup (env : StartupEnv) : RunOutcome :=
  match load_state env with
  | .ok _ => .enteredRunPhase
  | .error _ => .crashedBeforeRunPhase

/-- The class attribute `TorrentAddingDialog.selected_download_dir` (line 47),
shared by every add dialog of the process. -/
structure GuiSession where
  selected_download_dir : String
deriving DecidableEq, Repr

/-- `_browse` (lines 79-86): an empty result (cancelled dialog) changes
nothing; otherwise the class attribute is reassigned. -/
def browse (g : GuiSession) (new_download_dir : String) : GuiSession :=
  if new_download_dir = "" then g
  else { selected_download_dir := new_download_dir }

/-- `_get_directory_browse_widget` (line 68): a freshly constructed dialog
initializes its path edit from the class attribute. -/
def dialogInitialDir (g : GuiSession) : String := g.selected_download_dir

/-- Constructing a `TorrentAddingDialog` (for any torrent): it reads the class
attribute into its path edit and does not modify it. -/
def createDialog (g : GuiSession) : GuiSession × String := (g, dialogInitialDir g)

theorem ItemList.get?_set_self : ∀ (cs : ItemList) (i : Nat) (c c1 : Item),
    cs.get? i = some c → (cs.set i c1).get? i = some c1
  | .nil, i, _, _, h => by simp [ItemList.get?] at h
  | .cons _ _, 0, _, _, _ => rfl
  | .cons _ tl, n + 1, c, c1, h => ItemList.get?_set_self tl n c c1 h

@[simp] theorem beq_u_u : (CheckState.unchecked == CheckState.unchecked) = true := rfl
@[simp] theorem beq_p_p : (CheckState.partChecked == CheckState.partChecked) = true := rfl
@[simp] theorem beq_c_c : (CheckState.checked == CheckState.checked) = true := rfl
@[simp] theorem beq_u_p : (CheckState.unchecked == CheckState.partChecked) = false := rfl
@[simp] theorem beq_u_c : (CheckState.unchecked == CheckState.checked) = false := rfl
@[simp] theorem beq_p_u : (CheckState.partChecked == CheckState.unchecked) = false := rfl
@[simp] theorem beq_p_c : (CheckState.partChecked == CheckState.checked) = false := rfl
@[simp] theorem beq_c_u : (CheckState.checked == CheckState.unchecked) = false := rfl
@[simp] theorem beq_c_p : (CheckState.checked == CheckState.partChecked) = false := rfl

theorem allState_checked_eq : ∀ (cs : ItemList),
    cs.allState .checked = (!cs.anyState .partChecked && !cs.anyState .unchecked)
  | .nil => rfl
  | .cons c cs => by
    cases hc : c.state <;>
      simp [ItemList.allState, ItemList.anyState, hc, allState_checked_eq cs]

theorem allState_unchecked_eq : ∀ (cs : ItemList),
    cs.allState .unchecked = (!cs.anyState .checked && !cs.anyState .partChecked)
  | .nil => rfl
  | .cons c cs => by
    cases hc : c.state <;>
      simp [ItemList.allState, ItemList.anyState, hc, allState_unchecked_eq cs]

/-- The recomputation the code performs coincides with the rule the spec
states. -/
theorem aggregate_eq_specAggregate (cs : ItemList) : aggregate cs = specAggregate cs := by
  unfold aggregate specAggregate
  rw [allState_checked_eq, allState_unchecked_eq]
  cases h1 : cs.anyState .checked <;> cases h2 : cs.anyState .partChecked <;>
    cases h3 : cs.anyState .unchecked <;> simp

theorem upward_walk_aggregates : ∀ (q r : List Nat) (t t' : Item) (s : CheckState),
    update_checkboxes t (q ++ r) s = some t' → r ≠ [] →
    ∃ st cs, getNode t' q = some (.dir st cs) ∧ st = specAggregate cs := by
  intro q
  induction q with
  | nil =>
    intro r t t' s h hr
    cases r with
    | nil => exact absurd rfl hr
    | cons i p =>
      cases t with
      | file st len => simp [update_checkboxes] at h
      | dir st cs =>
        simp only [List.nil_append, update_checkboxes, Option.bind_eq_some,
          Option.map_eq_some'] at h
        obtain ⟨c, hg, c1, hu, ht⟩ := h
        exact ⟨_, _, by rw [← ht]; rfl, aggregate_eq_specAggregate _⟩
  | cons i q ih =>
    intro r t t' s h hr
    cases t with
    | file st len => simp [update_checkboxes] at h
    | dir st cs =>
      simp only [List.cons_append, update_checkboxes, Option.bind_eq_some,
        Option.map_eq_some'] at h
      obtain ⟨c, hg, c1, hu, ht⟩ := h
      have hget : getNode t' (i :: q) = getNode c1 q := by
        rw [← ht]
        simp only [getNode, ItemList.get?_set_self cs i c c1 hg]
      rw [hget]
      exact ih r c c1 s hu hr

theorem get?_setAllTo : ∀ (cs : ItemList) (s : CheckState) (i : Nat),
    (cs.setAllTo s).get? i = (cs.get? i).map (fun c => c.setAllTo s)
  | .nil, _, _ => rfl
  | .cons _ _, _, 0 => rfl
  | .cons _ tl, s, n + 1 => get?_setAllTo tl s n

theorem getNode_setAllTo : ∀ (p : List Nat) (t : Item) (s : CheckState),
    getNode (t.setAllTo s) p = (getNode t p).map (fun n => n.setAllTo s) := by
  intro p
  induction p with
  | nil => intro t s; simp [getNode]
  | cons i p ih =>
    intro t s
    cases t with
    | file st len => rfl
    | dir st cs =>
      show getNode (.dir s (cs.setAllTo s)) (i :: p) = _
      simp only [getNode, get?_setAllTo]
      cases cs.get? i with
      | none => rfl
      | some c => exact ih c s

theorem state_setAllTo (t : Item) (s : CheckState) : (t.setAllTo s).state = s := by
  cases t <;> rfl

theorem set_check_state_setState (t : Item) (s : CheckState) :
    set_check_state_to_tree (t.setState s) s = t.setAllTo s := by
  cases t <;> rfl

theorem descendants_forced : ∀ (p : List Nat) (t t' : Item) (s : CheckState),
    update_checkboxes t p s = some t' →
    ∀ (q : List Nat) (n : Item), getNode t' (p ++ q) = some n → n.state = s := by
  intro p
  induction p with
  | nil =>
    intro t t' s h q n hn
    simp only [update_checkboxes, set_check_state_setState, Option.some.injEq] at h
    rw [← h, List.nil_append, getNode_setAllTo] at hn
    obtain ⟨m, _, hm⟩ := Option.map_eq_some'.mp hn
    rw [← hm]
    exact state_setAllTo m s
  | cons i p ih =>
    intro t t' s h q n hn
    cases t with
    | file st len => simp [update_checkboxes] at h
    | dir st cs =>
      simp only [update_checkboxes, Option.bind_eq_some, Option.map_eq_some'] at h
      obtain ⟨c, hg, c1, hu, ht⟩ := h
      rw [← ht] at hn
      simp only [List.cons_append, getNode,
        ItemList.get?_set_self cs i c c1 hg] at hn
      exact ih c c1 s hu q n hn

theorem selectionStep_eq (t : Item) (acc : Nat × Nat) (q : List Nat × Nat) :
    selectionStep t acc q = (acc.1 + countStep t q, acc.2 + sizeStep t q) := by
  unfold selectionStep countStep sizeStep
  cases getNode t q.1 with
  | none => simp
  | some n => cases hn : (n.state == .checked) <;> simp [hn]

theorem foldl_selectionStep (t : Item) : ∀ (items : List (List Nat × Nat)) (acc : Nat × Nat),
    items.foldl (selectionStep t) acc = (acc.1 + sumCount t items, acc.2 + sumSize t items) := by
  intro items
  induction items with
  | nil => intro acc; simp [sumCount, sumSize]
  | cons q rest ih =>
    intro acc
    simp only [List.foldl_cons, sumCount, sumSize, ih, selectionStep_eq]
    exact Prod.ext (by simp [Nat.add_assoc]) (by simp [Nat.add_assoc])

theorem selectedStats_eq (items : List (List Nat × Nat)) (t : Item) :
    selectedStats items t = (sumCount t items, sumSize t items) := by
  unfold selectedStats
  rw [foldl_selectionStep]
  simp

theorem sumCount_append (t : Item) :
    ∀ (a b : List (List Nat × Nat)), sumCount t (a ++ b) = sumCount t a + sumCount t b
  | [], b => (Nat.zero_add _).symm
  | q :: a, b => by
    simp only [List.cons_append, sumCount, List.append_eq]
    rw [sumCount_append t a b, Nat.add_assoc]

theorem sumSize_append (t : Item) :
    ∀ (a b : List (List Nat × Nat)), sumSize t (a ++ b) = sumSize t a + sumSize t b
  | [], b => (Nat.zero_add _).symm
  | q :: a, b => by
    simp only [List.cons_append, sumSize, List.append_eq]
    rw [sumSize_append t a b, Nat.add_assoc]

theorem getNode_dir_cons (st : CheckState) (cs0 : ItemList) (k : Nat) (c : Item)
    (hk : cs0.get? k = some c) (p : List Nat) :
    getNode (.dir st cs0) (k :: p) = getNode c p := by
  simp [getNode, hk]

theorem sumCount_map_path (st : CheckState) (cs0 : ItemList) (k : Nat) (c : Item)
    (hk : cs0.get? k = some c) :
    ∀ items, sumCount (.dir st cs0) (items.map fun q => (k :: q.1, q.2)) = sumCount c items := by
  intro items
  induction items with
  | nil => rfl
  | cons q rest ih =>
    simp only [List.map_cons, sumCount, ih]
    congr 1
    unfold countStep
    rw [show (k :: q.1, q.2).1 = k :: q.1 from rfl, getNode_dir_cons st cs0 k c hk]

theorem sumSize_map_path (st : CheckState) (cs0 : ItemList) (k : Nat) (c : Item)
    (hk : cs0.get? k = some c) :
    ∀ items, sumSize (.dir st cs0) (items.map fun q => (k :: q.1, q.2)) = sumSize c items := by
  intro items
  induction items with
  | nil => rfl
  | cons q rest ih =>
    simp only [List.map_cons, sumSize, ih]
    congr 1
    unfold sizeStep
    rw [show (k :: q.1, q.2).1 = k :: q.1 from rfl, getNode_dir_cons st cs0 k c hk]

mutual
/-- A full recount over a tree's own file items yields exactly the number of
checked leaves and the sum of their lengths. -/
theorem fileItems_stats : ∀ (t : Item),
    sumCount t t.fileItems = t.checkedLeafCount ∧ sumSize t t.fileItems = t.checkedLeafSize
  | .file s len => by
    simp [Item.fileItems, sumCount, sumSize, countStep, sizeStep, getNode,
      Item.state, Item.checkedLeafCount, Item.checkedLeafSize]
  | .dir st cs =>
    fileItemsFrom_stats cs st cs 0 (fun j => by simp)

theorem fileItemsFrom_stats : ∀ (cs : ItemList) (st : CheckState) (cs0 : ItemList) (k : Nat),
    (∀ j, cs0.get? (k + j) = cs.get? j) →
    sumCount (.dir st cs0) (cs.fileItemsFrom k) = cs.checkedLeafCount ∧
      sumSize (.dir st cs0) (cs.fileItemsFrom k) = cs.checkedLeafSize
  | .nil, st, cs0, k, _ => by
    simp [ItemList.fileItemsFrom, sumCount, sumSize, ItemList.checkedLeafCount,
      ItemList.checkedLeafSize]
  | .cons c tl, st, cs0, k, h => by
    have hk : cs0.get? k = some c := by
      have := h 0
      simpa [ItemList.get?] using this
    have htl : ∀ j, cs0.get? (k + 1 + j) = tl.get? j := by
      intro j
      have := h (j + 1)
      rw [show k + (j + 1) = k + 1 + j by omega] at this
      simpa [ItemList.get?] using this
    have hc := fileItems_stats c
    have ht := fileItemsFrom_stats tl st cs0 (k + 1) htl
    constructor
    · simp only [ItemList.fileItemsFrom, sumCount_append, ItemList.checkedLeafCount,
        sumCount_map_path st cs0 k c hk, ht.1]
      rw [hc.1]
    · simp only [ItemList.fileItemsFrom, sumSize_append, ItemList.checkedLeafSize,
        sumSize_map_path st cs0 k c hk, ht.2]
      rw [hc.2]
end

mutual
theorem setAllTo_fileItems : ∀ (t : Item) (s : CheckState),
    (t.setAllTo s).fileItems = t.fileItems
  | .file _ _, _ => rfl
  | .dir _ cs, s => by
    simp only [Item.setAllTo, Item.fileItems, setAllTo_fileItemsFrom cs s 0]

theorem setAllTo_fileItemsFrom : ∀ (cs : ItemList) (s : CheckState) (k : Nat),
    (cs.setAllTo s).fileItemsFrom k = cs.fileItemsFrom k
  | .nil, _, _ => rfl
  | .cons c tl, s, k => by
    simp only [ItemList.setAllTo, ItemList.fileItemsFrom, setAllTo_fileItems c s,
      setAllTo_fileItemsFrom tl s (k + 1)]
end

theorem set_fileItemsFrom : ∀ (cs : ItemList) (i : Nat) (c c1 : Item) (k : Nat),
    cs.get? i = some c → c1.fileItems = c.fileItems →
    (cs.set i c1).fileItemsFrom k = cs.fileItemsFrom k
  | .nil, i, c, c1, k, hg, _ => by simp [ItemList.get?] at hg
  | .cons hd tl, 0, c, c1, k, hg, hf => by
    have : hd = c := by simpa [ItemList.get?] using hg
    subst this
    simp only [ItemList.set, ItemList.fileItemsFrom, hf]
  | .cons hd tl, i + 1, c, c1, k, hg, hf => by
    simp only [ItemList.set, ItemList.fileItemsFrom,
      set_fileItemsFrom tl i c c1 (k + 1) hg hf]

theorem update_fileItems : ∀ (p : List Nat) (t t' : Item) (s : CheckState),
    update_checkboxes t p s = some t' → t'.fileItems = t.fileItems := by
  intro p
  induction p with
  | nil =>
    intro t t' s h
    simp only [update_checkboxes, set_check_state_setState, Option.some.injEq] at h
    rw [← h, setAllTo_fileItems]
  | cons i p ih =>
    intro t t' s h
    cases t with
    | file st len => simp [update_checkboxes] at h
    | dir st cs =>
      simp only [update_checkboxes, Option.bind_eq_some, Option.map_eq_some'] at h
      obtain ⟨c, hg, c1, hu, ht⟩ := h
      rw [← ht]
      simp only [Item.fileItems]
      exact set_fileItemsFrom cs i c c1 0 hg (ih c c1 s hu)

theorem applyToggles_fileItems : ∀ (ops : List (List Nat × CheckState)) (t t' : Item),
    applyToggles t ops = some t' → t'.fileItems = t.fileItems := by
  intro ops
  induction ops with
  | nil => intro t t' h; simp only [applyToggles, Option.some.injEq] at h; rw [h]
  | cons op ops ih =>
    intro t t' h
    obtain ⟨p, s⟩ := op
    simp only [applyToggles, Option.bind_eq_some] at h
    obtain ⟨t1, hu, ha⟩ := h
    rw [ih t1 t' ha, update_fileItems p t t1 s hu]

/-- After any toggle sequence, the full recount over the `_file_items` captured
at construction time yields the checked-leaf count and size of the current
tree. -/
theorem selectedStats_correct (t0 t' : Item) (ops : List (List Nat × CheckState))
    (h : applyToggles t0 ops = some t') :
    selectedStats t0.fileItems t' = (t'.checkedLeafCount, t'.checkedLeafSize) := by
  rw [← applyToggles_fileItems ops t0 t' h, selectedStats_eq]
  exact Prod.ext (fileItems_stats t').1 (fileItems_stats t').2

theorem mem_insertAtIdx {α : Type} : ∀ (l : List α) (i : Nat) (a x : α),
    x ∈ insertAtIdx l i a ↔ x = a ∨ x ∈ l
  | l, 0, a, x => by simp [insertAtIdx]
  | [], _ + 1, a, x => by simp [insertAtIdx]
  | y :: ys, i + 1, a, x => by
    simp only [insertAtIdx, List.mem_cons, mem_insertAtIdx ys i a x]
    tauto

theorem map_insertAtIdx {α β : Type} (f : α → β) : ∀ (l : List α) (i : Nat) (a : α),
    (insertAtIdx l i a).map f = insertAtIdx (l.map f) i (f a)
  | l, 0, a => by simp [insertAtIdx]
  | [], _ + 1, _ => by simp [insertAtIdx]
  | y :: ys, i + 1, a => by simp [insertAtIdx, map_insertAtIdx f ys i a]

theorem nodup_insertAtIdx {α : Type} : ∀ (l : List α) (i : Nat) (a : α),
    a ∉ l → l.Nodup → (insertAtIdx l i a).Nodup
  | l, 0, a, ha, hl => by simp [insertAtIdx, List.nodup_cons, ha, hl]
  | [], _ + 1, a, _, _ => by simp [insertAtIdx]
  | y :: ys, i + 1, a, ha, hl => by
    rw [List.mem_cons, not_or] at ha
    rw [List.nodup_cons] at hl
    simp only [insertAtIdx, List.nodup_cons]
    refine ⟨fun hy => ?_, nodup_insertAtIdx ys i a ha.2 hl.2⟩
    rcases (mem_insertAtIdx ys i a y).mp hy with h | h
    · exact ha.1 h.symm
    · exact hl.1 h

theorem sorted_insert_upper (s : TorrentState Name) : ∀ (l : List (TorrentState Name)),
    List.Sorted (· ≤ ·) (l.map TorrentState.suggested_name) →
    List.Sorted (· ≤ ·)
      ((insertAtIdx l (items_upper l s.suggested_name) s).map TorrentState.suggested_name)
  | [], _ => by simp [items_upper, insertAtIdx, List.sorted_singleton]
  | x :: xs, hl => by
    rw [List.map_cons, List.sorted_cons] at hl
    by_cases hlt : s.suggested_name < x.suggested_name
    · simp only [items_upper, if_pos hlt, insertAtIdx, List.map_cons, List.sorted_cons]
      refine ⟨fun b hb => ?_, hl⟩
      rcases List.mem_cons.mp hb with h | h
      · exact h ▸ le_of_lt hlt
      · exact (le_of_lt hlt).trans (hl.1 b h)
    · simp only [items_upper, if_neg hlt, insertAtIdx, List.map_cons, List.sorted_cons]
      refine ⟨fun b hb => ?_, sorted_insert_upper s xs hl.2⟩
      rw [map_insertAtIdx] at hb
      rcases (mem_insertAtIdx _ _ _ b).mp hb with h | h
      · exact h ▸ not_lt.mp hlt
      · exact hl.1 b h

omit [LinearOrder Name] in
theorem map_name_replaceById (nameOf : Nat → Name) (s : TorrentState Name)
    (hs : s.suggested_name = nameOf s.info_hash) : ∀ (l : List (TorrentState Name)),
    (∀ x ∈ l, x.suggested_name = nameOf x.info_hash) →
    (replaceById l s).map TorrentState.suggested_name = l.map TorrentState.suggested_name
  | [], _ => rfl
  | x :: xs, h => by
    by_cases hx : x.info_hash = s.info_hash
    · simp only [replaceById, if_pos hx, List.map_cons]
      rw [hs, h x (List.mem_cons_self x xs), hx]
    · simp only [replaceById, if_neg hx, List.map_cons,
        map_name_replaceById nameOf s hs xs (fun y hy => h y (List.mem_cons_of_mem x hy))]

omit [LinearOrder Name] in
theorem map_id_replaceById (s : TorrentState Name) : ∀ (l : List (TorrentState Name)),
    (replaceById l s).map TorrentState.info_hash = l.map TorrentState.info_hash
  | [] => rfl
  | x :: xs => by
    by_cases hx : x.info_hash = s.info_hash
    · simp [replaceById, if_pos hx, hx]
    · simp [replaceById, if_neg hx, map_id_replaceById s xs]

omit [LinearOrder Name] in
theorem mem_replaceById (s : TorrentState Name) :
    ∀ (l : List (TorrentState Name)) (y : TorrentState Name),
    y ∈ replaceById l s → y = s ∨ y ∈ l
  | [], y, h => by simp [replaceById] at h
  | x :: xs, y, h => by
    by_cases hx : x.info_hash = s.info_hash
    · simp only [replaceById, if_pos hx] at h
      rcases List.mem_cons.mp h with h | h
      · exact Or.inl h
      · exact Or.inr (List.mem_cons_of_mem x h)
    · simp only [replaceById, if_neg hx] at h
      rcases List.mem_cons.mp h with h | h
      · exact Or.inr (h ▸ List.mem_cons_self x xs)
      · rcases mem_replaceById s xs y h with h | h
        · exact Or.inl h
        · exact Or.inr (List.mem_cons_of_mem x h)

omit [LinearOrder Name] in
theorem mem_removeById (id : Nat) :
    ∀ (l : List (TorrentState Name)) (y : TorrentState Name),
    y ∈ removeById l id → y ∈ l
  | [], y, h => by simp [removeById] at h
  | x :: xs, y, h => by
    by_cases hx : x.info_hash = id
    · simp only [removeById, if_pos hx] at h
      exact List.mem_cons_of_mem x h
    · simp only [removeById, if_neg hx] at h
      rcases List.mem_cons.mp h with h | h
      · exact h ▸ List.mem_cons_self x xs
      · exact List.mem_cons_of_mem x (mem_removeById id xs y h)

theorem sorted_map_removeById (id : Nat) : ∀ (l : List (TorrentState Name)),
    List.Sorted (· ≤ ·) (l.map TorrentState.suggested_name) →
    List.Sorted (· ≤ ·) ((removeById l id).map TorrentState.suggested_name)
  | [], h => h
  | x :: xs, h => by
    rw [List.map_cons, List.sorted_cons] at h
    by_cases hx : x.info_hash = id
    · simp only [removeById, if_pos hx]
      exact h.2
    · simp only [removeById, if_neg hx, List.map_cons, List.sorted_cons]
      refine ⟨fun b hb => ?_, sorted_map_removeById id xs h.2⟩
      rcases List.mem_map.mp hb with ⟨y, hy, hyb⟩
      exact hyb ▸ h.1 _ (List.mem_map_of_mem _ (mem_removeById id xs y hy))

omit [LinearOrder Name] in
theorem map_id_removeById (id : Nat) : ∀ (l : List (TorrentState Name)),
    (removeById l id).map TorrentState.info_hash = eraseKey (l.map TorrentState.info_hash) id
  | [] => rfl
  | x :: xs => by
    by_cases hx : x.info_hash = id
    · simp [removeById, eraseKey, if_pos hx, hx]
    · simp [removeById, eraseKey, if_neg hx, hx, map_id_removeById id xs]

theorem mem_eraseKey : ∀ (l : List Nat) (id a : Nat), l.Nodup →
    (a ∈ eraseKey l id ↔ a ≠ id ∧ a ∈ l)
  | [], id, a, _ => by simp [eraseKey]
  | k :: ks, id, a, h => by
    rw [List.nodup_cons] at h
    by_cases hk : k = id
    · simp only [eraseKey, if_pos hk]
      subst hk
      constructor
      · intro ha
        exact ⟨fun he => h.1 (he ▸ ha), List.mem_cons_of_mem k ha⟩
      · rintro ⟨hne, hmem⟩
        rcases List.mem_cons.mp hmem with h1 | h1
        · exact absurd h1 hne
        · exact h1
    · simp only [eraseKey, if_neg hk, List.mem_cons, mem_eraseKey ks id a h.2]
      constructor
      · rintro (h1 | ⟨h1, h2⟩)
        · exact ⟨h1 ▸ hk, Or.inl h1⟩
        · exact ⟨h1, Or.inr h2⟩
      · rintro ⟨h1, h2 | h2⟩
        · exact Or.inl h2
        · exact Or.inr ⟨h1, h2⟩

theorem nodup_eraseKey : ∀ (l : List Nat) (id : Nat), l.Nodup → (eraseKey l id).Nodup
  | [], _, h => h
  | k :: ks, id, h => by
    rw [List.nodup_cons] at h
    by_cases hk : k = id
    · simp only [eraseKey, if_pos hk]
      exact h.2
    · simp only [eraseKey, if_neg hk, List.nodup_cons]
      exact ⟨fun hm => h.1 ((mem_eraseKey ks id k h.2).mp hm).2, nodup_eraseKey ks id h.2⟩

theorem registryInv_step (nameOf : Nat → Name) (w w' : MainWindowItems Name)
    (op : RegistryOp Name) (hinv : RegistryInv nameOf w)
    (hwf : WFRegistryOp nameOf w op) (h : applyRegistryOp w op = some w') :
    RegistryInv nameOf w' := by
  obtain ⟨hsort, hmem, hnodids, hnoddict, hnames⟩ := hinv
  simp only [ids] at hmem hnodids
  unfold RegistryInv ids
  cases op with
  | add s =>
    obtain ⟨hname, hfresh⟩ := hwf
    simp only [applyRegistryOp, Option.some.injEq] at h
    subst h
    have hfreshids : s.info_hash ∉ w.items.map TorrentState.info_hash :=
      fun hm => hfresh ((hmem s.info_hash).mpr hm)
    have hdict : (add_torrent_item w s).torrent_to_item
        = s.info_hash :: w.torrent_to_item := by
      simp [add_torrent_item, if_neg hfresh]
    have hitems : (add_torrent_item w s).items
        = insertAtIdx w.items (items_upper w.items s.suggested_name) s := rfl
    have hids : (add_torrent_item w s).items.map TorrentState.info_hash
        = insertAtIdx (w.items.map TorrentState.info_hash)
            (items_upper w.items s.suggested_name) s.info_hash := by
      rw [hitems, map_insertAtIdx]
    refine ⟨?_, fun id => ?_, ?_, ?_, fun x hx => ?_⟩
    · rw [hitems]
      exact sorted_insert_upper s w.items hsort
    · rw [hdict, hids, List.mem_cons, mem_insertAtIdx]
      exact or_congr Iff.rfl (hmem id)
    · rw [hids]
      exact nodup_insertAtIdx _ _ _ hfreshids hnodids
    · rw [hdict]
      exact List.nodup_cons.mpr ⟨hfresh, hnoddict⟩
    · rw [hitems] at hx
      rcases (mem_insertAtIdx _ _ _ x).mp hx with h | h
      · exact h ▸ hname
      · exact hnames x h
  | update s =>
    by_cases hid : s.info_hash ∈ w.torrent_to_item
    · simp only [applyRegistryOp, update_torrent_item, if_pos hid,
        Option.some.injEq] at h
      subst h
      refine ⟨?_, fun id => ?_, ?_, hnoddict, fun x hx => ?_⟩
      · show List.Sorted (· ≤ ·) ((replaceById w.items s).map TorrentState.suggested_name)
        rw [map_name_replaceById nameOf s hwf w.items hnames]
        exact hsort
      · show id ∈ w.torrent_to_item ↔
          id ∈ (replaceById w.items s).map TorrentState.info_hash
        rw [map_id_replaceById]
        exact hmem id
      · show ((replaceById w.items s).map TorrentState.info_hash).Nodup
        rw [map_id_replaceById]
        exact hnodids
      · rcases mem_replaceById s w.items x hx with h | h
        · exact h ▸ hwf
        · exact hnames x h
    · simp [applyRegistryOp, update_torrent_item, if_neg hid] at h
  | remove id =>
    by_cases hid : id ∈ w.torrent_to_item
    · simp only [applyRegistryOp, remove_torrent_item, if_pos hid,
        Option.some.injEq] at h
      subst h
      refine ⟨sorted_map_removeById id w.items hsort, fun a => ?_, ?_, ?_, fun x hx => ?_⟩
      · show a ∈ eraseKey w.torrent_to_item id ↔
          a ∈ (removeById w.items id).map TorrentState.info_hash
        rw [map_id_removeById, mem_eraseKey _ _ _ hnoddict, mem_eraseKey _ _ _ hnodids]
        exact and_congr Iff.rfl (hmem a)
      · show ((removeById w.items id).map TorrentState.info_hash).Nodup
        rw [map_id_removeById]
        exact nodup_eraseKey _ _ hnodids
      · exact nodup_eraseKey _ _ hnoddict
      · exact hnames x (mem_removeById id w.items x hx)
    · simp [applyRegistryOp, remove_torrent_item, if_neg hid] at h

theorem emptyRegistryInv (nameOf : Nat → Name) :
    RegistryInv nameOf (emptyWindow : MainWindowItems Name) := by
  refine ⟨List.sorted_nil, fun id => ?_, List.nodup_nil, List.nodup_nil, fun s hs => ?_⟩
  · simp [emptyWindow, ids]
  · simp [emptyWindow] at hs

theorem registryInv_ops : ∀ (ops : List (RegistryOp Name)) (nameOf : Nat → Name)
    (w : MainWindowItems Name), RegistryInv nameOf w → WFTrace nameOf w ops →
    ∀ w', applyRegistryOps w ops = some w' → RegistryInv nameOf w'
  | [], nameOf, w, hinv, _, w', h => by
    simp only [applyRegistryOps, Option.some.injEq] at h
    exact h ▸ hinv
  | op :: ops, nameOf, w, hinv, htr, w', h => by
    cases htr with
    | cons hwf happ htr =>
      simp only [applyRegistryOps, Option.bind_eq_some] at h
      obtain ⟨w1, hs1, hrest⟩ := h
      rw [happ, Option.some.injEq] at hs1
      subst hs1
      exact registryInv_ops ops nameOf _ (registryInv_step nameOf w _ op hinv hwf happ)
        htr w' hrest

/-- **C1**: after any node's check state changes (a toggle of the item at path
`q ++ r` on any tree, hence after any sequence of earlier toggles, since `t` is
arbitrary), every strict ancestor of that node — every item at a path `q` with
a nonempty rest `r` — has its state recomputed to exactly the spec's rule:
`Checked` if all of its children are `Checked`, `Unchecked` if all are
`Unchecked`, and `Partial` otherwise. -/
theorem C1_upward_aggregation (t t' : Item) (q r : List Nat) (s : CheckState)
    (h : update_checkboxes t (q ++ r) s = some t') (hr : r ≠ []) :
    ∃ st cs, getNode t' q = some (.dir st cs) ∧ st = specAggregate cs :=
  upward_walk_aggregates q r t t' s h hr

theorem C1_witness :
    ∃ st cs,
      getNode (Item.dir .partChecked
        (.cons (.file .checked 100) (.cons (.file .unchecked 200) .nil))) []
        = some (.dir st cs) ∧ st = specAggregate cs :=
  C1_upward_aggregation
    (.dir .unchecked (.cons (.file .unchecked 100) (.cons (.file .unchecked 200) .nil)))
    (.dir .partChecked (.cons (.file .checked 100) (.cons (.file .unchecked 200) .nil)))
    [] [0] .checked (by rfl) (by decide)

/-- **C3**: setting any node (the item at path `p`) to `Checked` or `Unchecked`
recursively forces every descendant — every item at a path `p ++ q` — to the
same state; no descendant retains a different state afterwards. -/
theorem C3_downward_propagation (t t' : Item) (p q : List Nat) (s : CheckState)
    (n : Item) (_hs : s = .checked ∨ s = .unchecked)
    (h : update_checkboxes t p s = some t')
    (hn : getNode t' (p ++ q) = some n) :
    n.state = s :=
  descendants_forced p t t' s h q n hn

/-- **C4**: after any sequence of toggles, the reported `selected_file_count`
equals the number of leaf (file) items whose state is `Checked` and the
reported `selected_size` equals the exact sum of the lengths of those checked
leaves — the fold over the `_file_items` list captured at construction time
agrees with a recount over the current tree. -/
theorem C4_selected_aggregates (t0 t' : Item) (ops : List (List Nat × CheckState))
    (h : applyToggles t0 ops = some t') :
    selectedStats t0.fileItems t' = (t'.checkedLeafCount, t'.checkedLeafSize) :=
  selectedStats_correct t0 t' ops h

theorem C4_witness : selectedStats demoTree.fileItems demoAfter = (2, 250) :=
  (C4_selected_aggregates demoTree demoAfter
      [([], .unchecked), ([0, 1], .checked), ([1, 0], .checked)] (by rfl)).trans
    (by decide)

/-- **C7**: after any sequence of toggles, submission is disabled exactly when
no leaf is `Checked`: the Ok button is disabled when the checked-leaf count is
zero and enabled when at least one leaf is checked. -/
theorem C7_ok_button (t0 t' : Item) (ops : List (List Nat × CheckState))
    (h : applyToggles t0 ops = some t') :
    (t'.checkedLeafCount = 0 → okEnabled t0.fileItems t' = false)
    ∧ (t'.checkedLeafCount ≠ 0 → okEnabled t0.fileItems t' = true) := by
  have hs := selectedStats_correct t0 t' ops h
  unfold okEnabled
  rw [hs]
  constructor
  · intro h0
    simp [h0]
  · intro h0
    simpa using h0

theorem C7_witness : okEnabled demoTree.fileItems demoAllUnchecked = false :=
  (C7_ok_button demoTree demoAllUnchecked [([], .unchecked)] (by rfl)).1 (by decide)

theorem C3_witness : Item.state (.file .checked 7) = .checked :=
  C3_downward_propagation
    (.dir .unchecked (.cons (.dir .unchecked (.cons (.file .unchecked 7) .nil)) .nil))
    (.dir .checked (.cons (.dir .checked (.cons (.file .checked 7) .nil)) .nil))
    [] [0, 0] .checked (.file .checked 7) (Or.inl rfl) (by rfl) (by rfl)

/-- **C2**: for any sequence of insert-new-torrent, update-torrent and
remove-torrent operations on the live registry — each well-formed: an add is
for a not-yet-registered id, updates and removes succeed, and every snapshot
carries its torrent's immutable name — the displayed sequence is sorted
ascending by torrent name and the id set stored in the dictionary equals the
id set of the sequence.  Every prefix of a well-formed trace is itself a
well-formed trace, so this holds after each operation. -/
theorem C2_registry_invariant (nameOf : Nat → Name) (ops : List (RegistryOp Name))
    (w' : MainWindowItems Name) (hwf : WFTrace nameOf emptyWindow ops)
    (h : applyRegistryOps emptyWindow ops = some w') :
    List.Sorted (· ≤ ·) (w'.items.map TorrentState.suggested_name)
    ∧ ∀ id, id ∈ w'.torrent_to_item ↔ id ∈ ids w' := by
  have hinv := registryInv_ops ops nameOf emptyWindow (emptyRegistryInv nameOf) hwf w' h
  exact ⟨hinv.1, hinv.2.1⟩

theorem C2_witness :
    List.Sorted (· ≤ ·)
      ((MainWindowItems.mk [TorrentState.mk 1 5] [1]).items.map TorrentState.suggested_name)
    ∧ ∀ id, id ∈ (MainWindowItems.mk [TorrentState.mk 1 5] [1]).torrent_to_item
        ↔ id ∈ ids (MainWindowItems.mk [TorrentState.mk 1 5] [1]) :=
  C2_registry_invariant (fun id => if id = 1 then 5 else 3)
    [.add ⟨1, 5⟩, .add ⟨2, 3⟩, .update ⟨1, 5⟩, .remove 2]
    ⟨[⟨1, 5⟩], [1]⟩
    (WFTrace.cons ⟨rfl, by decide⟩ (by rfl)
      (WFTrace.cons ⟨rfl, by decide⟩ (by rfl)
        (WFTrace.cons rfl (by rfl)
          (WFTrace.cons trivial (by rfl) (WFTrace.nil _)))))
    (by rfl)

/-- **C5**: submitting a pause, resume or remove command for an id unknown to
the engine completes without raising to the caller's context —
`invoke_control_action` is total, the `except ValueError: pass` handler
swallowing the NotFound failure — and emits no changed or removed event. -/
theorem C5_unknown_id_suppressed (known : List Nat) (id : Nat) (h : id ∉ known) :
    invoke_control_action (control_pause known) id = []
    ∧ invoke_control_action (control_resume known) id = []
    ∧ invoke_control_action (control_remove known) id = [] := by
  unfold invoke_control_action control_pause control_resume control_remove
  simp [h]

theorem C5_witness :
    invoke_control_action (control_pause []) 0 = []
    ∧ invoke_control_action (control_resume []) 0 = []
    ∧ invoke_control_action (control_remove []) 0 = [] :=
  C5_unknown_id_suppressed [] 0 (by decide)

/-- **C6**: `stop` is idempotent — for any state in which `stop` has run once,
a second call is a no-op — and from the running state calling `stop` twice
performs `_save_state` exactly once and joins the thread exactly once. -/
theorem C6_stop_idempotent :
    (∀ t : ControlThreadState, t.stop.stop = t.stop)
    ∧ runningControlThread.stop.stop.save_state_count = 1
    ∧ runningControlThread.stop.stop.join_count = 1 := by
  refine ⟨fun t => ?_, rfl, rfl⟩
  unfold ControlThreadState.stop
  cases h : t.stopping <;> simp [h]

/-- **C8 counterexample**: with an existing state file whose load raises, the
background thread never reaches the run phase — the failure is neither caught
nor logged by `run`, so it is not treated as a cold start and it does abort the
engine's startup. -/
theorem C8_counterexample :
    runStartup ⟨true, true⟩ = .crashedBeforeRunPhase
    ∧ runStartup ⟨true, true⟩ ≠ .enteredRunPhase := by
  exact ⟨rfl, by decide⟩

/-- **C8 amended**: absence of the state file is not an error — startup
proceeds as a cold start — but a failure while loading an existing state file
is not caught: the exception propagates out of `run` before the run phase
(`run_forever`) is entered. -/
theorem C8_load_failure :
    (∀ b : Bool, runStartup ⟨false, b⟩ = .enteredRunPhase)
    ∧ runStartup ⟨true, false⟩ = .enteredRunPhase
    ∧ runStartup ⟨true, true⟩ = .crashedBeforeRunPhase := by
  refine ⟨fun b => ?_, rfl, rfl⟩
  cases b <;> rfl

/-- **C9**: for a single-file torrent the built item structure is a lone
childless leaf — no selection hierarchy is instantiated over it — and on
submission, whatever toggles happened, the whitelisting step is skipped
(`select_files` is not called), so the engine downloads the torrent's whole
single-file content. -/
theorem C9_single_file (len : Nat) (ops : List (List Nat × CheckState)) (t' : Item)
    (allFiles : List (List Nat))
    (_h : applyToggles (traverse_file_tree (.fileInfo len)) ops = some t') :
    traverse_file_tree (.fileInfo len) = .file .checked len
    ∧ (submit_torrent (traverse_file_tree (.fileInfo len)).fileItems t'
        (single_file_mode (.fileInfo len))).select_files_called = false
    ∧ downloadedFiles
        (submit_torrent (traverse_file_tree (.fileInfo len)).fileItems t'
          (single_file_mode (.fileInfo len))) allFiles = allFiles := by
  refine ⟨rfl, rfl, ?_⟩
  unfold downloadedFiles submit_torrent single_file_mode
  simp

theorem C9_witness :
    traverse_file_tree (.fileInfo 5) = .file .checked 5
    ∧ (submit_torrent (traverse_file_tree (.fileInfo 5)).fileItems (.file .checked 5)
        (single_file_mode (.fileInfo 5))).select_files_called = false
    ∧ downloadedFiles
        (submit_torrent (traverse_file_tree (.fileInfo 5)).fileItems (.file .checked 5)
          (single_file_mode (.fileInfo 5))) [[0]] = [[0]] :=
  C9_single_file 5 [] (.file .checked 5) [[0]] (by rfl)

/-- **C10**: the default download directory is class-level shared mutable
state: after any browse chooses a (nonempty) directory `d`, the shared
attribute holds `d`, dialog creation does not change it, and therefore every
add dialog created afterwards — for any torrent — initializes its
download-directory field to `d`, not to the process's original working
directory. -/
theorem C10_shared_download_dir (g : GuiSession) (d : String) (hd : d ≠ "") :
    (createDialog (browse g d)).2 = d
    ∧ (createDialog (browse g d)).1 = browse g d
    ∧ (createDialog (createDialog (browse g d)).1).2 = d := by
  unfold createDialog dialogInitialDir browse
  rw [if_neg hd]
  exact ⟨rfl, rfl, rfl⟩

theorem C10_witness :
    (createDialog (browse ⟨"/orig"⟩ "/downloads")).2 = "/downloads"
    ∧ (createDialog (browse ⟨"/orig"⟩ "/downloads")).1 = browse ⟨"/orig"⟩ "/downloads"
    ∧ (createDialog (createDialog (browse ⟨"/orig"⟩ "/downloads")).1).2 = "/downloads" :=
  C10_shared_download_dir ⟨"/orig"⟩ "/downloads" (by decide)

end TorrentGui
